import Mathlib

/-!
# Verification development for the buffer cache and the case terms

Shallow embedding of

* `src/buffer_cache/mirrored.hpp` (the cache constructor, `buf::ptr`,
  `buf::ptr_possibly_uncached`),
* `src/buffer_cache/concurrency/rwi_conc.hpp` (the per-block concurrency
  policy `rwi_conc_t` and its `local_buf_t`),
* `src/rdb_protocol/terms/case.cc` (the `upcase` / `downcase` terms).

Conventions.  `size_t` is the 64-bit unsigned machine word and `unsigned int`
the 32-bit one; unsigned arithmetic wraps, which is written with an explicit
`% SIZE_T_MOD`.  Pointers to callback objects are natural numbers, `0` being
the null pointer.  `int` is the 32-bit signed machine word; `++` and `--` on
it are written with the explicit two's complement wrap `int_wrap`, which is
what the supported targets compute.  The debug build is modelled (`NDEBUG` not defined), so the
`assert`s are active and `active_callback_count` exists; a failed `assert`
is an `Except.error`.
-/

/-! ## Machine words -/

/-- Number of values of a `size_t` (64-bit targets). -/
def SIZE_T_MOD : Nat := 2 ^ 64

/-- Number of values of an `unsigned int`. -/
def UINT_MOD : Nat := 2 ^ 32

/-- The largest `int`. -/
def INT_MAX : Int := 2147483647

/-- The smallest `int`. -/
def INT_MIN : Int := -2147483648

/-- The `int` that holds the result `x` of a `++` or `--`: `x` itself when it
is in the range of `int`, and the two's complement wrap otherwise. -/
def int_wrap (x : Int) : Int := (x + 2147483648) % 4294967296 - 2147483648

/-! ## `mirrored_cache_t` constructor (mirrored.hpp, lines 165-185) -/

/-- What the constructor of `mirrored_cache_t` hands to its base classes:
the serializer gets the block size, page replacement gets the maximum number
of blocks, writeback gets the flush parameters; the debug counters start at
zero.  The fields hold the values of the argument expressions; the parameter
types of the base-class constructors are declared outside the sources. -/
structure mirrored_cache_t where
  serializer_block_size : Nat
  page_repl_max_blocks : Nat
  writeback_wait_for_flush : Bool
  writeback_flush_timer_ms : Nat
  writeback_flush_threshold : Nat
  n_trans_created : Int
  n_trans_freed : Int
  n_blocks_acquired : Int
  n_blocks_released : Int
deriving DecidableEq, Repr

/-- The constructor `mirrored_cache_t(_block_size, _max_size, wait_for_flush,
flush_timer_ms, flush_threshold_percent)`.  `_max_size / _block_size` is a
`size_t` division (undefined for a zero divisor: `none`); the product with
`flush_threshold_percent` is a `size_t` product and wraps; the division by
`100` comes last. -/
def mirrored_cache_t.construct (_block_size _max_size : Nat) (wait_for_flush : Bool)
    (flush_timer_ms flush_threshold_percent : Nat) : Option mirrored_cache_t :=
  if _block_size = 0 then none
  else some {
    serializer_block_size := _block_size
    page_repl_max_blocks := _max_size / _block_size
    writeback_wait_for_flush := wait_for_flush
    writeback_flush_timer_ms := flush_timer_ms
    writeback_flush_threshold :=
      (_max_size / _block_size * flush_threshold_percent) % SIZE_T_MOD / 100
    n_trans_created := 0
    n_trans_freed := 0
    n_blocks_acquired := 0
    n_blocks_released := 0 }

/-! ## Failed assertions -/

/-- The `assert`s of the modelled code, named after the asserted condition,
and the fatal programming error of releasing a lock nobody holds. -/
inductive assertion where
  | lock_callbacks_not_empty
  | callback_not_null
  | not_safe_to_unload
  | cached
  | lock_locked
  | unlock_of_unlocked_lock
deriving DecidableEq, Repr

/-! ## Callback objects and intrusive lists -/

/-- A `block_available_callback_t *`: the address of the callback object,
`0` for the null pointer. -/
abbrev block_available_callback_t := Nat

/-- A `lock_available_callback_t *`: the address of the object the lock wakes. -/
abbrev lock_available_callback_t := Nat

/-- Modelled from the spec: `intrusive_list_t` (containers, not part of the
sources) is an ordered queue; the nodes are listed from the head on. -/
abbrev intrusive_list_t (α : Type) := List α

namespace intrusive_list_t

/-- Modelled from the spec: `empty()`, whether the queue has no node. -/
def empty {α : Type} (l : intrusive_list_t α) : Bool := List.isEmpty l

/-- Modelled from the spec: `head()`, the first node of the queue, if any. -/
def head {α : Type} (l : intrusive_list_t α) : Option α := List.head? l

/-- Modelled from the spec: `remove(x)`, which unlinks the node `x`. -/
def remove {α : Type} [DecidableEq α] (l : intrusive_list_t α) (x : α) : intrusive_list_t α :=
  List.erase l x

/-- Modelled from the spec: `push_back(x)`, which links `x` after the last node. -/
def push_back {α : Type} (l : intrusive_list_t α) (x : α) : intrusive_list_t α :=
  l ++ [x]

/-- Modelled from the spec: `size()`, the number of nodes. -/
def size {α : Type} (l : intrusive_list_t α) : Nat := List.length l

end intrusive_list_t

/-! ## The reader-writer-intent lock (rwi_lock.hpp is not part of the sources) -/

/-- Modelled from the spec: the four lock modes of section 4.3 (`access_t`,
whose header is not part of the sources). -/
inductive access_t where
  | Read
  | IntentRead
  | Write
  | IntentWrite
deriving DecidableEq, Repr

/-- Modelled from the spec: the table of section 4.3, read by rows:
`coexists requested held` says that a request in mode `requested` may join a
holder in mode `held`. -/
def coexists : access_t → access_t → Bool
  | .Read, .Read => true
  | .Read, .IntentRead => true
  | .IntentRead, .Read => true
  | .IntentWrite, .Read => true
  | _, _ => false

/-- Modelled from the spec: the state of `rwi_lock_t`: the modes of the
current holders, oldest first, and the internal waiter queue, each entry being
the requested mode and the object to wake. -/
structure rwi_lock_t where
  holders : List access_t
  waiters : List (access_t × lock_available_callback_t)
deriving DecidableEq, Repr

namespace rwi_lock_t

/-- Modelled from the spec: whether `mode` is compatible with every current
holder. -/
def compatible (l : rwi_lock_t) (mode : access_t) : Bool :=
  l.holders.all (coexists mode)

/-- Modelled from the spec: `try_lock(mode)` "grants immediately iff compatible
with current holders and no earlier waiter would be starved": FIFO, no barging,
so nothing is granted past a waiting request. -/
def try_lock (l : rwi_lock_t) (mode : access_t) : Bool :=
  l.compatible mode && l.waiters.isEmpty

/-- Modelled from the spec: `add_waiter(mode, cb)` enqueues at the back. -/
def add_waiter (l : rwi_lock_t) (mode : access_t) (cb : lock_available_callback_t) :
    rwi_lock_t :=
  { l with waiters := l.waiters ++ [(mode, cb)] }

/-- Modelled from the spec: `lock(mode, callback)` as `rwi_conc_t::acquire`
calls it: the mode is granted at once and `true` returned, or the request is
enqueued with the callback and `false` returned. -/
def lock (l : rwi_lock_t) (mode : access_t) (callback : lock_available_callback_t) :
    Bool × rwi_lock_t :=
  if l.try_lock mode then (true, { l with holders := l.holders ++ [mode] })
  else (false, l.add_waiter mode callback)

/-- Modelled from the spec: `locked()`, whether the lock is held in any mode. -/
def locked (l : rwi_lock_t) : Bool := !l.holders.isEmpty

/-- Modelled from the spec: the second half of `unlock()`, "repeatedly grants
the front of the waiter queue while compatibility permits": the new holders,
the waiters left, and the objects woken, one per grant, in grant order. -/
def grant_front : List access_t → List (access_t × lock_available_callback_t) →
    List access_t × List (access_t × lock_available_callback_t) × List lock_available_callback_t
  | hs, [] => (hs, [], [])
  | hs, (m, cb) :: rest =>
    if hs.all (coexists m) then
      let r := grant_front (hs ++ [m]) rest
      (r.1, r.2.1, cb :: r.2.2)
    else (hs, (m, cb) :: rest, [])

/-- Modelled from the spec: `unlock()` releases one holder (the spec does not
say which; the oldest is taken) and then grants from the front of the queue.
Unlocking a lock nobody holds is a fatal programming error (section 7). -/
def unlock (l : rwi_lock_t) : Except assertion (rwi_lock_t × List lock_available_callback_t) :=
  match l.holders with
  | [] => .error .unlock_of_unlocked_lock
  | _ :: hs =>
    let r := grant_front hs l.waiters
    .ok ({ holders := r.1, waiters := r.2.1 }, r.2.2)

end rwi_lock_t

/-! ## Blocks (mirrored.hpp) and the concurrency policy (rwi_conc.hpp) -/

/-- A `block_id_t`. -/
abbrev block_id_t := Nat

/-- The fields of `rwi_conc_t::local_buf_t`.  The back pointer `gbuf` is the
block the record is a member of; the methods that follow it take that block. -/
structure rwi_conc_t.local_buf_t where
  lock : rwi_lock_t
  lock_callbacks : intrusive_list_t block_available_callback_t
deriving DecidableEq, Repr

/-- Modelled from the spec: the writeback record of a block (its type is not
part of the sources): the dirty flag and the in-flight I/O marker. -/
structure writeback_local_buf_t where
  dirty : Bool
  in_flight : Bool
deriving DecidableEq, Repr

/-- The fields of `buf`: the debug counter (an `int`), the block id, the data pointer, the
`cached` flag, the load callbacks and the policy records.  The records of page
replacement and of the page map have types outside the sources and no part in
what follows. -/
structure buf where
  active_callback_count : Int
  block_id : block_id_t
  data : Nat
  cached : Bool
  load_callbacks : intrusive_list_t block_available_callback_t
  writeback_buf : writeback_local_buf_t
  concurrency_buf : rwi_conc_t.local_buf_t
deriving DecidableEq, Repr

/-- One call `callback->on_block_available(gbuf)`: the callback object and the
block passed to it. -/
structure on_block_available_call where
  callback : block_available_callback_t
  gbuf : block_id_t
deriving DecidableEq, Repr

namespace rwi_conc_t

namespace local_buf_t

/-- The method `local_buf_t::on_lock_available` of the block `gbuf`: the debug
counter, an `int`, is decremented, the head of `lock_callbacks` is unlinked and called
with the block.  The result is the block as the callback finds it and the
calls made. -/
def on_lock_available (gbuf : buf) :
    Except assertion (buf × List on_block_available_call) :=
  let gbuf := { gbuf with active_callback_count := int_wrap (gbuf.active_callback_count - 1) }
  if intrusive_list_t.empty gbuf.concurrency_buf.lock_callbacks then
    .error .lock_callbacks_not_empty
  else
    match intrusive_list_t.head gbuf.concurrency_buf.lock_callbacks with
    | none => .error .lock_callbacks_not_empty
    | some _callback =>
      let gbuf := { gbuf with concurrency_buf := { gbuf.concurrency_buf with
        lock_callbacks := intrusive_list_t.remove gbuf.concurrency_buf.lock_callbacks _callback } }
      .ok (gbuf, [{ callback := _callback, gbuf := gbuf.block_id }])

/-- The method `local_buf_t::add_lock_callback`. -/
def add_lock_callback (self : local_buf_t) (callback : block_available_callback_t) :
    Except assertion local_buf_t :=
  if callback = 0 then .error .callback_not_null
  else .ok { self with lock_callbacks := intrusive_list_t.push_back self.lock_callbacks callback }

/-- The method `local_buf_t::safe_to_unload`. -/
def safe_to_unload (self : local_buf_t) : Bool :=
  !self.lock.locked && intrusive_list_t.empty self.lock_callbacks

end local_buf_t

/-- The method `rwi_conc_t::acquire(buf, mode, state)`; the object handed to
the lock is the block's own `concurrency_buf`, named by the block id. -/
def acquire (b : buf) (mode : access_t) (_state : Nat) : Bool × buf :=
  let r := b.concurrency_buf.lock.lock mode b.block_id
  if r.1 then
    (true, { b with concurrency_buf := { b.concurrency_buf with lock := r.2 } })
  else
    (false, { b with
      concurrency_buf := { b.concurrency_buf with lock := r.2 }
      active_callback_count := int_wrap (b.active_callback_count + 1) })

/-- The wake-ups of one `unlock()`: the lock calls `on_lock_available()` on the
object of every request it grants, and every object on the queue of a block's
lock is that block. -/
def wake : List lock_available_callback_t → buf →
    Except assertion (buf × List on_block_available_call)
  | [], b => .ok (b, [])
  | _ :: rest, b =>
    match local_buf_t.on_lock_available b with
    | .error e => .error e
    | .ok (b1, calls1) =>
      match wake rest b1 with
      | .error e => .error e
      | .ok (b2, calls2) => .ok (b2, calls1 ++ calls2)

/-- The method `rwi_conc_t::release(buf)`: `buf->concurrency_buf.lock.unlock()`,
with the wake-ups the lock makes for the requests it grants. -/
def release (b : buf) : Except assertion (buf × List on_block_available_call) :=
  match b.concurrency_buf.lock.unlock with
  | .error e => .error e
  | .ok (l, woken) => wake woken { b with concurrency_buf := { b.concurrency_buf with lock := l } }

end rwi_conc_t

namespace buf

/-- Modelled from the spec: `buf::safe_to_unload` (declared in mirrored.hpp,
defined outside the sources): "a block is safe to unload iff it is unlocked,
has no load waiters, no lock waiters, no in-flight I/O, and is not dirty". -/
def safe_to_unload (b : buf) : Bool :=
  rwi_conc_t.local_buf_t.safe_to_unload b.concurrency_buf &&
    intrusive_list_t.empty b.load_callbacks &&
    !b.writeback_buf.in_flight && !b.writeback_buf.dirty

/-- The method `buf::ptr_possibly_uncached`. -/
def ptr_possibly_uncached (b : buf) : Except assertion Nat :=
  if b.safe_to_unload then .error .not_safe_to_unload else .ok b.data

/-- The method `buf::ptr`. -/
def ptr (b : buf) : Except assertion Nat :=
  if !b.cached then .error .cached
  else if !b.concurrency_buf.lock.locked then .error .lock_locked
  else b.ptr_possibly_uncached

end buf

/-! ## Sequences of operations on one block -/

/-- An operation of the concurrency policy on a block. -/
inductive policy_op where
  | acquire (mode : access_t) (state : Nat)
  | add_lock_callback (callback : block_available_callback_t)
  | on_lock_available
  | release
deriving DecidableEq, Repr

/-- One operation of the concurrency policy, with the calls it makes. -/
def policy_step (b : buf) : policy_op → Except assertion (buf × List on_block_available_call)
  | .acquire mode state => .ok ((rwi_conc_t.acquire b mode state).2, [])
  | .add_lock_callback callback =>
    match rwi_conc_t.local_buf_t.add_lock_callback b.concurrency_buf callback with
    | .error e => .error e
    | .ok lb => .ok ({ b with concurrency_buf := lb }, [])
  | .on_lock_available => rwi_conc_t.local_buf_t.on_lock_available b
  | .release => rwi_conc_t.release b

/-- A sequence of operations, left to right; the calls are collected in the
order they are made. -/
def policy_run : List policy_op → buf → Except assertion (buf × List on_block_available_call)
  | [], b => .ok (b, [])
  | op :: ops, b =>
    match policy_step b op with
    | .error e => .error e
    | .ok (b1, calls1) =>
      match policy_run ops b1 with
      | .error e => .error e
      | .ok (b2, calls2) => .ok (b2, calls1 ++ calls2)

/-- The callbacks a sequence of operations registers, in registration order. -/
def registered : List policy_op → List block_available_callback_t
  | [] => []
  | .add_lock_callback callback :: ops => callback :: registered ops
  | _ :: ops => registered ops

/-- The number of wake-ups (`on_lock_available`) in a sequence of operations. -/
def wakeups : List policy_op → Nat
  | [] => 0
  | .on_lock_available :: ops => wakeups ops + 1
  | _ :: ops => wakeups ops

/-- An interleaving of registrations (of non-null callbacks) and wake-ups in
which no wake-up happens on an empty queue, `q` being the length of the queue
at the start. -/
def wakeups_covered : Nat → List policy_op → Bool
  | _, [] => true
  | q, .add_lock_callback callback :: ops => callback != 0 && wakeups_covered (q + 1) ops
  | q, .on_lock_available :: ops => q != 0 && wakeups_covered (q - 1) ops
  | _, _ :: _ => false

/-- Modelled from the spec: what the cache does with the policy for a request
on a resident block and for giving a block back (`transaction::acquire` and
`buf::release` are outside the sources): a request the lock does not grant at
once is registered with `add_lock_callback` in the same turn, to be called
"later ... exactly once". -/
inductive cache_op where
  | acquire (mode : access_t) (callback : block_available_callback_t)
  | release
deriving DecidableEq, Repr

/-- Modelled from the spec: one step of `cache_op`. -/
def cache_step (b : buf) : cache_op → Except assertion (buf × List on_block_available_call)
  | .acquire mode callback =>
    let r := rwi_conc_t.acquire b mode callback
    if r.1 then .ok (r.2, [])
    else
      match rwi_conc_t.local_buf_t.add_lock_callback r.2.concurrency_buf callback with
      | .error e => .error e
      | .ok lb => .ok ({ r.2 with concurrency_buf := lb }, [])
  | .release => rwi_conc_t.release b

/-- Modelled from the spec: a sequence of `cache_op`, left to right. -/
def cache_run : List cache_op → buf → Except assertion (buf × List on_block_available_call)
  | [], b => .ok (b, [])
  | op :: ops, b =>
    match cache_step b op with
    | .error e => .error e
    | .ok (b1, calls1) =>
      match cache_run ops b1 with
      | .error e => .error e
      | .ok (b2, calls2) => .ok (b2, calls1 ++ calls2)

/-- The comment on `lock_callbacks`: it has as many objects as the internal
queue of the lock. -/
def queues_agree (b : buf) : Prop :=
  intrusive_list_t.size b.concurrency_buf.lock_callbacks = b.concurrency_buf.lock.waiters.length

instance (b : buf) : Decidable (queues_agree b) := by
  unfold queues_agree; exact inferInstance

/-- A cached block with the given id and data pointer that nobody holds or
waits for. -/
def idle_buf (block_id : block_id_t) (data : Nat) : buf :=
  { active_callback_count := 0
    block_id := block_id
    data := data
    cached := true
    load_callbacks := []
    writeback_buf := { dirty := false, in_flight := false }
    concurrency_buf := { lock := { holders := [], waiters := [] }, lock_callbacks := [] } }

/-! ## The case terms (case.cc) -/

/-- A `char` of a `std::string`, stored as its byte pattern. -/
abbrev char_t := Fin 256

/-- The integral promotion `char -> int` of the call `f_(c)` inside
`std::transform`; `char` is signed on the supported targets. -/
def char_to_int (c : char_t) : Int :=
  if c.val < 128 then (c.val : Int) else (c.val : Int) - 256

/-- The conversion `int -> char` of the assignment `*d_first = f_(c)`:
the low eight bits are kept. -/
def int_to_char (x : Int) : char_t :=
  ⟨(x % 256).toNat, by omega⟩

/-- Modelled from the spec: `::toupper` is the C library function, not part of
the sources.  In the "C" locale, the one a process has unless it calls
`setlocale`, it maps the ASCII lower-case letters `a`..`z` (97..122) to
`A`..`Z` and leaves every other character as it is (byte-wise toupper).  For
the negative values a signed `char` from 128 up is promoted to, the C library
of the supported targets answers with a value of the same low eight bits, so
the byte stored back is the one modelled here. -/
def toupper (c : Int) : Int :=
  if 97 ≤ c ∧ c ≤ 122 then c - 32 else c

/-- Modelled from the spec: `::tolower` is the C library function, not part of
the sources.  In the "C" locale it maps the ASCII upper-case letters `A`..`Z`
(65..90) to `a`..`z` and leaves every other character as it is (byte-wise
tolower); negative values are treated as for `toupper`. -/
def tolower (c : Int) : Int :=
  if 65 ≤ c ∧ c ≤ 90 then c + 32 else c

/-- The value `f(c)` stored back into a `char`, as in `*d_first = f(*first)`. -/
def apply_to_char (f : Int → Int) (c : char_t) : char_t :=
  int_to_char (f (char_to_int c))

/-- `std::transform(first, last, d_first, f)` with `d_first = first`, on the
characters of `s`, as the loop `while (first != last) *d_first++ = f(*first++)`
over indices; `n` is the number of elements still to visit, `last - first`. -/
def std_transform (f : Int → Int) : Nat → Nat → List char_t → List char_t
  | 0, _, s => s
  | n + 1, first, s =>
    match s[first]? with
    | none => s
    | some c => std_transform f n (first + 1) (s.set first (apply_to_char f c))

/-- The class `case_term_t`: its name and the function pointer `f_`. -/
structure case_term_t where
  name_ : String
  f_ : Int → Int

namespace case_term_t

/-- The method `case_term_t::eval_impl`, on the string value of argument 0:
a copy of the string is transformed in place over `[s.begin(), s.end())` and
wrapped as the result datum. -/
def eval_impl (t : case_term_t) (s : List char_t) : List char_t :=
  std_transform t.f_ s.length 0 s

/-- The method `case_term_t::name`. -/
def name (t : case_term_t) : String := t.name_

/-- The method `case_term_t::op_is_deterministic`. -/
def op_is_deterministic (_t : case_term_t) : Bool := true

end case_term_t

/-- The term built by `make_upcase_term`. -/
def make_upcase_term : case_term_t := { name_ := "upcase", f_ := toupper }

/-- The term built by `make_downcase_term`. -/
def make_downcase_term : case_term_t := { name_ := "downcase", f_ := tolower }

/-! ## Theorems -/

theorem construct_eq_some (bs ms : Nat) (w : Bool) (t p : Nat) (hbs : bs ≠ 0) :
    mirrored_cache_t.construct bs ms w t p = some {
      serializer_block_size := bs
      page_repl_max_blocks := ms / bs
      writeback_wait_for_flush := w
      writeback_flush_timer_ms := t
      writeback_flush_threshold := (ms / bs * p) % SIZE_T_MOD / 100
      n_trans_created := 0
      n_trans_freed := 0
      n_blocks_acquired := 0
      n_blocks_released := 0 } := by
  simp [mirrored_cache_t.construct, hbs]

theorem flush_threshold_no_wrap (q p : Nat) (hov : q * p < SIZE_T_MOD) :
    (q * p) % SIZE_T_MOD / 100 = q * p / 100 := by
  rw [Nat.mod_eq_of_lt hov]

theorem flush_threshold_le (q p : Nat) (hp : p ≤ 100) : q * p / 100 ≤ q := by
  have h : q * p ≤ q * 100 := Nat.mul_le_mul_left q hp
  calc q * p / 100 ≤ q * 100 / 100 := Nat.div_le_div_right h
    _ = q := by simp

/-- C1 (amended): for every configuration with a non-zero block size the
constructor passes `max_blocks = max_size_bytes / block_size` (rounded down) to
page replacement and the `size_t` value of
`max_blocks * flush_threshold_percent / 100` to writeback, the product being
taken first and wrapping at the machine word; whenever the product fits the
machine word this is `max_blocks * flush_threshold_percent / 100` exactly. -/
theorem C1_construct_thresholds (bs ms : Nat) (w : Bool) (t p : Nat) (hbs : bs ≠ 0) :
    ∃ c, mirrored_cache_t.construct bs ms w t p = some c ∧
      c.page_repl_max_blocks = ms / bs ∧
      c.writeback_flush_threshold = (c.page_repl_max_blocks * p) % SIZE_T_MOD / 100 ∧
      (c.page_repl_max_blocks * p < SIZE_T_MOD →
        c.writeback_flush_threshold = c.page_repl_max_blocks * p / 100) := by
  refine ⟨_, construct_eq_some bs ms w t p hbs, rfl, rfl, ?_⟩
  intro hov
  exact flush_threshold_no_wrap _ _ hov

/-- C1, the example of the spec: a cache sized for 4 blocks with
`flush_threshold_percent = 50` gets `flush_threshold_blocks = 2`. -/
theorem C1_construct_thresholds_witness :
    ∃ c, mirrored_cache_t.construct 4096 16384 true 100 50 = some c ∧
      c.page_repl_max_blocks = 4 ∧ c.writeback_flush_threshold = 2 := by
  obtain ⟨c, hc, hmax, -, hthr⟩ := C1_construct_thresholds 4096 16384 true 100 50 (by decide)
  have h4 : c.page_repl_max_blocks = 4 := by rw [hmax]
  refine ⟨c, hc, h4, ?_⟩
  rw [hthr (by rw [h4]; decide), h4]

/-- C1 as stated fails where the product wraps: with `block_size = 1`,
`max_size_bytes = 2^63` and `flush_threshold_percent = 50`, all within the
range of their types, writeback gets the threshold `0`, not
`max_blocks * 50 / 100 = 2^62`. -/
theorem C1_counterexample :
    1 < SIZE_T_MOD ∧ 2 ^ 63 < SIZE_T_MOD ∧ 50 < UINT_MOD ∧
    ∃ c, mirrored_cache_t.construct 1 (2 ^ 63) true 100 50 = some c ∧
      c.page_repl_max_blocks = 2 ^ 63 ∧
      c.writeback_flush_threshold = 0 ∧
      c.page_repl_max_blocks * 50 / 100 = 2 ^ 62 ∧
      c.writeback_flush_threshold ≠ c.page_repl_max_blocks * 50 / 100 := by
  refine ⟨by decide, by decide, by decide, _, construct_eq_some 1 (2 ^ 63) true 100 50 (by decide),
    ?_, ?_, ?_, ?_⟩ <;> simp [SIZE_T_MOD]

/-- C9: for every configuration with a non-zero block size, a flush threshold
percentage of at most 100 and a product `max_blocks * flush_threshold_percent`
that fits the machine word, the threshold passed to writeback is at most the
`max_blocks` passed to page replacement, and a smaller percentage never gives
a larger threshold. -/
theorem C9_flush_threshold_bounded (bs ms : Nat) (w : Bool) (t p : Nat) (hbs : bs ≠ 0)
    (hp : p ≤ 100) (hov : ms / bs * p < SIZE_T_MOD) :
    ∃ c, mirrored_cache_t.construct bs ms w t p = some c ∧
      c.writeback_flush_threshold ≤ c.page_repl_max_blocks ∧
      ∀ p1, p1 ≤ p → ∃ c1, mirrored_cache_t.construct bs ms w t p1 = some c1 ∧
        c1.page_repl_max_blocks = c.page_repl_max_blocks ∧
        c1.writeback_flush_threshold ≤ c.writeback_flush_threshold := by
  refine ⟨_, construct_eq_some bs ms w t p hbs, ?_, ?_⟩
  · show (ms / bs * p) % SIZE_T_MOD / 100 ≤ ms / bs
    rw [flush_threshold_no_wrap _ _ hov]
    exact flush_threshold_le _ _ hp
  · intro p1 hp1
    refine ⟨_, construct_eq_some bs ms w t p1 hbs, rfl, ?_⟩
    show (ms / bs * p1) % SIZE_T_MOD / 100 ≤ (ms / bs * p) % SIZE_T_MOD / 100
    have hle : ms / bs * p1 ≤ ms / bs * p := Nat.mul_le_mul_left _ hp1
    rw [flush_threshold_no_wrap _ _ hov, flush_threshold_no_wrap _ _ (lt_of_le_of_lt hle hov)]
    exact Nat.div_le_div_right hle

/-- C9 at the configuration of the spec's scenario S3: 4 blocks, 50 percent. -/
theorem C9_flush_threshold_bounded_witness :
    ∃ c, mirrored_cache_t.construct 4096 16384 true 100 50 = some c ∧
      c.writeback_flush_threshold ≤ c.page_repl_max_blocks ∧
      ∀ p1, p1 ≤ 50 → ∃ c1, mirrored_cache_t.construct 4096 16384 true 100 p1 = some c1 ∧
        c1.page_repl_max_blocks = c.page_repl_max_blocks ∧
        c1.writeback_flush_threshold ≤ c.writeback_flush_threshold :=
  C9_flush_threshold_bounded 4096 16384 true 100 50 (by decide) (by decide) (by decide)

/-! ### The case terms -/

theorem std_transform_getElem? (f : Int → Int) (n : Nat) :
    ∀ (first : Nat) (s : List char_t) (i : Nat),
      (std_transform f n first s)[i]? =
        if first ≤ i ∧ i < first + n then (s[i]?).map (apply_to_char f) else s[i]? := by
  induction n with
  | zero =>
    intro first s i
    have h : ¬ (first ≤ i ∧ i < first + 0) := by omega
    rw [if_neg h]
    rfl
  | succ n ih =>
    intro first s i
    unfold std_transform
    cases hc : s[first]? with
    | none =>
      simp only
      have hlen : s.length ≤ first := by
        rcases Nat.lt_or_ge first s.length with h | h
        · rw [List.getElem?_eq_getElem h] at hc; cases hc
        · exact h
      split_ifs with h
      · have : s[i]? = none := List.getElem?_eq_none (by omega)
        simp [this]
      · rfl
    | some c =>
      simp only
      rw [ih, List.getElem?_set]
      by_cases hi : first = i
      · subst hi
        have h1 : ¬ (first + 1 ≤ first ∧ first < first + 1 + n) := by omega
        have h2 : first ≤ first ∧ first < first + (n + 1) := by omega
        have h3 : first < s.length := by
          rcases Nat.lt_or_ge first s.length with h | h
          · exact h
          · rw [List.getElem?_eq_none h] at hc; cases hc
        simp [h1, h2, h3, hc]
      · by_cases hr : first ≤ i ∧ i < first + (n + 1)
        · have h1 : first + 1 ≤ i ∧ i < first + 1 + n := by omega
          simp [h1, hr, hi]
        · have h1 : ¬ (first + 1 ≤ i ∧ i < first + 1 + n) := by omega
          simp [h1, hr, hi]

theorem eval_impl_eq_map (t : case_term_t) (s : List char_t) :
    t.eval_impl s = s.map (apply_to_char t.f_) := by
  apply List.ext_getElem?
  intro i
  rw [case_term_t.eval_impl, std_transform_getElem?, List.getElem?_map]
  split_ifs with h
  · rfl
  · have : s.length ≤ i := by omega
    simp [List.getElem?_eq_none this]

theorem apply_toupper_val (c : char_t) :
    (apply_to_char toupper c).val = if 97 ≤ c.val ∧ c.val ≤ 122 then c.val - 32 else c.val := by
  have hc : c.val < 256 := c.isLt
  simp only [apply_to_char, int_to_char, toupper, char_to_int]
  split_ifs <;> omega

theorem apply_tolower_val (c : char_t) :
    (apply_to_char tolower c).val = if 65 ≤ c.val ∧ c.val ≤ 90 then c.val + 32 else c.val := by
  have hc : c.val < 256 := c.isLt
  simp only [apply_to_char, int_to_char, tolower, char_to_int]
  split_ifs <;> omega

theorem toupper_toupper (c : char_t) :
    apply_to_char toupper (apply_to_char toupper c) = apply_to_char toupper c := by
  apply Fin.ext
  rw [apply_toupper_val (apply_to_char toupper c), apply_toupper_val c]
  split_ifs <;> omega

theorem tolower_tolower (c : char_t) :
    apply_to_char tolower (apply_to_char tolower c) = apply_to_char tolower c := by
  apply Fin.ext
  rw [apply_tolower_val (apply_to_char tolower c), apply_tolower_val c]
  split_ifs <;> omega

theorem tolower_toupper (c : char_t) :
    apply_to_char tolower (apply_to_char toupper c) = apply_to_char tolower c := by
  apply Fin.ext
  rw [apply_tolower_val (apply_to_char toupper c), apply_toupper_val c, apply_tolower_val c]
  split_ifs <;> omega

theorem toupper_tolower (c : char_t) :
    apply_to_char toupper (apply_to_char tolower c) = apply_to_char toupper c := by
  apply Fin.ext
  rw [apply_toupper_val (apply_to_char tolower c), apply_tolower_val c, apply_toupper_val c]
  split_ifs <;> omega

/-- C7: the upcase and downcase terms map the string byte by byte.  For every
term `t` of the class and every input string `s`, the result of `eval_impl`
has the length of `s` and its `i`-th byte is `f_(s[i])` stored back into a
`char`; `f_` is `toupper` for the upcase term and `tolower` for the downcase
term, so a byte that is not an ASCII lower-case letter (upcase), resp. not an
ASCII upper-case letter (downcase), is returned unchanged; and the term is
deterministic. -/
theorem C7_case_bytewise (t : case_term_t) (s : List char_t) :
    (t.eval_impl s).length = s.length ∧
    (∀ i : Nat, (t.eval_impl s)[i]? = (s[i]?).map (fun c => int_to_char (t.f_ (char_to_int c)))) ∧
    make_upcase_term.f_ = toupper ∧ make_downcase_term.f_ = tolower ∧
    (∀ (i : Nat) (c : char_t), s[i]? = some c → ¬ (97 ≤ c.val ∧ c.val ≤ 122) →
      (make_upcase_term.eval_impl s)[i]? = some c) ∧
    (∀ (i : Nat) (c : char_t), s[i]? = some c → ¬ (65 ≤ c.val ∧ c.val ≤ 90) →
      (make_downcase_term.eval_impl s)[i]? = some c) ∧
    t.op_is_deterministic = true ∧
    (∀ s1, s1 = s → t.eval_impl s1 = t.eval_impl s) := by
  refine ⟨?_, ?_, rfl, rfl, ?_, ?_, rfl, ?_⟩
  · rw [eval_impl_eq_map, List.length_map]
  · intro i
    rw [eval_impl_eq_map, List.getElem?_map]
    rfl
  · intro i c hc hnot
    rw [eval_impl_eq_map, List.getElem?_map, hc]
    show some (apply_to_char toupper c) = some c
    congr 1
    apply Fin.ext
    rw [apply_toupper_val, if_neg hnot]
  · intro i c hc hnot
    rw [eval_impl_eq_map, List.getElem?_map, hc]
    show some (apply_to_char tolower c) = some c
    congr 1
    apply Fin.ext
    rw [apply_tolower_val, if_neg hnot]
  · intro s1 h
    rw [h]

/-- C7 on the strings "hi!" followed by the byte 200, and "H!": the bytes
that are not letters of the case being converted come back unchanged. -/
theorem C7_case_bytewise_witness :
    (make_upcase_term.eval_impl [104, 105, 33, 200])[2]? = some 33 ∧
    (make_upcase_term.eval_impl [104, 105, 33, 200])[3]? = some 200 ∧
    (make_downcase_term.eval_impl [72, 33])[1]? = some 33 :=
  ⟨(C7_case_bytewise make_upcase_term [104, 105, 33, 200]).2.2.2.2.1 2 33 rfl (by decide),
   (C7_case_bytewise make_upcase_term [104, 105, 33, 200]).2.2.2.2.1 3 200 rfl (by decide),
   (C7_case_bytewise make_downcase_term [72, 33]).2.2.2.2.2.1 1 33 rfl (by decide)⟩

/-- C10: case conversion is idempotent and absorbing.  For every string `s`,
with `upcase` and `downcase` the results of `eval_impl` of the terms built by
`make_upcase_term` and `make_downcase_term`: `upcase (upcase s) = upcase s`,
`downcase (downcase s) = downcase s`, `downcase (upcase s) = downcase s` and
`upcase (downcase s) = upcase s`. -/
theorem C10_case_idempotent_absorbing (s : List char_t) :
    make_upcase_term.eval_impl (make_upcase_term.eval_impl s) = make_upcase_term.eval_impl s ∧
    make_downcase_term.eval_impl (make_downcase_term.eval_impl s) =
      make_downcase_term.eval_impl s ∧
    make_downcase_term.eval_impl (make_upcase_term.eval_impl s) =
      make_downcase_term.eval_impl s ∧
    make_upcase_term.eval_impl (make_downcase_term.eval_impl s) =
      make_upcase_term.eval_impl s := by
  simp only [eval_impl_eq_map, List.map_map, make_upcase_term, make_downcase_term]
  refine ⟨?_, ?_, ?_, ?_⟩ <;> apply List.map_congr_left <;> intro c _
  · exact toupper_toupper c
  · exact tolower_tolower c
  · exact tolower_toupper c
  · exact toupper_tolower c

/-! ### The waiter queue of a block -/

theorem intrusive_list_empty_iff {α : Type} (l : intrusive_list_t α) :
    intrusive_list_t.empty l = true ↔ l = [] := by
  cases l <;> simp [intrusive_list_t.empty]

theorem on_lock_available_cons (b : buf) (c : block_available_callback_t)
    (rest : List block_available_callback_t)
    (h : b.concurrency_buf.lock_callbacks = c :: rest) :
    rwi_conc_t.local_buf_t.on_lock_available b =
      .ok ({ b with
              active_callback_count := int_wrap (b.active_callback_count - 1)
              concurrency_buf := { b.concurrency_buf with lock_callbacks := rest } },
           [{ callback := c, gbuf := b.block_id }]) := by
  simp [rwi_conc_t.local_buf_t.on_lock_available, h, intrusive_list_t.empty,
    intrusive_list_t.head, intrusive_list_t.remove]

theorem on_lock_available_nil (b : buf) (h : b.concurrency_buf.lock_callbacks = []) :
    rwi_conc_t.local_buf_t.on_lock_available b = .error .lock_callbacks_not_empty := by
  simp [rwi_conc_t.local_buf_t.on_lock_available, h, intrusive_list_t.empty]

/-- C2: exactly one waiter is dispatched per wakeup.  For every block whose
`lock_callbacks` queue is non-empty, `on_lock_available` succeeds, makes
exactly one call, `on_block_available` on the head of the queue with the
owning block as argument, and leaves the queue without its head: the other
entries are all there, in their order, and the length has gone down by one;
the lock, the block id, the data pointer and the `cached` flag are not
touched. -/
theorem C2_one_waiter_per_wakeup (b : buf) (h : b.concurrency_buf.lock_callbacks ≠ []) :
    ∃ c rest b1,
      b.concurrency_buf.lock_callbacks = c :: rest ∧
      rwi_conc_t.local_buf_t.on_lock_available b =
        .ok (b1, [{ callback := c, gbuf := b.block_id }]) ∧
      b1.concurrency_buf.lock_callbacks = rest ∧
      intrusive_list_t.size b1.concurrency_buf.lock_callbacks + 1 =
        intrusive_list_t.size b.concurrency_buf.lock_callbacks ∧
      b1.concurrency_buf.lock = b.concurrency_buf.lock ∧
      b1.block_id = b.block_id ∧ b1.data = b.data ∧ b1.cached = b.cached := by
  cases hq : b.concurrency_buf.lock_callbacks with
  | nil => exact absurd hq h
  | cons c rest =>
    refine ⟨c, rest, _, rfl, on_lock_available_cons b c rest hq, rfl, ?_, rfl, rfl, rfl, rfl⟩
    simp [intrusive_list_t.size]

/-- C2 on a block with the waiters 11, 12, 13: the wake-up calls 11 with the
block and leaves 12, 13. -/
theorem C2_one_waiter_per_wakeup_witness :
    ∃ c rest b1,
      ({ idle_buf 7 1000 with
          concurrency_buf := { lock := { holders := [.Write], waiters := [] },
                               lock_callbacks := [11, 12, 13] } } : buf).concurrency_buf.lock_callbacks
        = c :: rest ∧
      rwi_conc_t.local_buf_t.on_lock_available
        { idle_buf 7 1000 with
          concurrency_buf := { lock := { holders := [.Write], waiters := [] },
                               lock_callbacks := [11, 12, 13] } } =
        .ok (b1, [{ callback := c, gbuf := 7 }]) ∧
      b1.concurrency_buf.lock_callbacks = rest ∧ c = 11 ∧ rest = [12, 13] := by
  obtain ⟨c, rest, b1, hq, hrun, hrest, -⟩ := C2_one_waiter_per_wakeup
    { idle_buf 7 1000 with
      concurrency_buf := { lock := { holders := [.Write], waiters := [] },
                           lock_callbacks := [11, 12, 13] } } (by decide)
  have hc : (11 : Nat) = c ∧ [12, 13] = rest := by
    simpa using hq
  exact ⟨c, rest, b1, hq, hrun, hrest, hc.1.symm, hc.2.symm⟩

theorem wake_queue (ws : List lock_available_callback_t) :
    ∀ (b b1 : buf) (calls : List on_block_available_call),
      rwi_conc_t.wake ws b = .ok (b1, calls) →
      calls.map (fun c => c.callback) ++ b1.concurrency_buf.lock_callbacks =
        b.concurrency_buf.lock_callbacks ∧
      b1.block_id = b.block_id ∧
      (∀ c ∈ calls, c.gbuf = b.block_id) ∧
      calls.length = ws.length ∧
      b1.concurrency_buf.lock = b.concurrency_buf.lock := by
  induction ws with
  | nil =>
    intro b b1 calls h
    simp only [rwi_conc_t.wake, Except.ok.injEq, Prod.mk.injEq] at h
    obtain ⟨rfl, rfl⟩ := h
    simp
  | cons w rest ih =>
    intro b b1 calls h
    cases hq : b.concurrency_buf.lock_callbacks with
    | nil =>
      simp [rwi_conc_t.wake, on_lock_available_nil b hq] at h
    | cons c r =>
      simp only [rwi_conc_t.wake, on_lock_available_cons b c r hq] at h
      cases hw : rwi_conc_t.wake rest
          { b with
            active_callback_count := int_wrap (b.active_callback_count - 1)
            concurrency_buf := { b.concurrency_buf with lock_callbacks := r } } with
      | error e => simp [hw] at h
      | ok res =>
        obtain ⟨b2, calls2⟩ := res
        simp only [hw, Except.ok.injEq, Prod.mk.injEq] at h
        obtain ⟨rfl, rfl⟩ := h
        obtain ⟨h1, h2, h3, h4, h5⟩ := ih _ _ _ hw
        refine ⟨?_, ?_, ?_, ?_, ?_⟩
        · have h1r : List.map (fun c => c.callback) calls2 ++ b2.concurrency_buf.lock_callbacks = r :=
            h1
          simp [h1r]
        · simpa using h2
        · intro x hx
          simp only [List.mem_append, List.mem_singleton] at hx
          rcases hx with rfl | hx
          · rfl
          · simpa using h3 x hx
        · simp [h4]
        · simpa using h5

theorem acquire_fst (b : buf) (mode : access_t) (state : Nat) :
    (rwi_conc_t.acquire b mode state).1 = (b.concurrency_buf.lock.lock mode b.block_id).1 := by
  by_cases h : (b.concurrency_buf.lock.lock mode b.block_id).1 = true
  · simp [rwi_conc_t.acquire, h]
  · simp only [Bool.not_eq_true] at h
    simp [rwi_conc_t.acquire, h]

theorem acquire_lock (b : buf) (mode : access_t) (state : Nat) :
    (rwi_conc_t.acquire b mode state).2.concurrency_buf.lock =
      (b.concurrency_buf.lock.lock mode b.block_id).2 := by
  by_cases h : (b.concurrency_buf.lock.lock mode b.block_id).1 = true <;>
    simp [rwi_conc_t.acquire, h]

theorem acquire_lock_callbacks (b : buf) (mode : access_t) (state : Nat) :
    (rwi_conc_t.acquire b mode state).2.concurrency_buf.lock_callbacks =
      b.concurrency_buf.lock_callbacks := by
  by_cases h : (b.concurrency_buf.lock.lock mode b.block_id).1 = true <;>
    simp [rwi_conc_t.acquire, h]

theorem acquire_block_id (b : buf) (mode : access_t) (state : Nat) :
    (rwi_conc_t.acquire b mode state).2.block_id = b.block_id := by
  by_cases h : (b.concurrency_buf.lock.lock mode b.block_id).1 = true <;>
    simp [rwi_conc_t.acquire, h]

theorem acquire_count (b : buf) (mode : access_t) (state : Nat) :
    (rwi_conc_t.acquire b mode state).2.active_callback_count =
      if (b.concurrency_buf.lock.lock mode b.block_id).1 then b.active_callback_count
      else int_wrap (b.active_callback_count + 1) := by
  by_cases h : (b.concurrency_buf.lock.lock mode b.block_id).1 = true <;>
    simp [rwi_conc_t.acquire, h]

theorem release_queue (b b1 : buf) (calls : List on_block_available_call)
    (h : rwi_conc_t.release b = .ok (b1, calls)) :
    calls.map (fun c => c.callback) ++ b1.concurrency_buf.lock_callbacks =
        b.concurrency_buf.lock_callbacks ∧
      b1.block_id = b.block_id ∧
      (∀ c ∈ calls, c.gbuf = b.block_id) := by
  unfold rwi_conc_t.release at h
  cases hu : b.concurrency_buf.lock.unlock with
  | error e => simp [hu] at h
  | ok res =>
    obtain ⟨l, woken⟩ := res
    simp only [hu] at h
    obtain ⟨h1, h2, h3, -, -⟩ := wake_queue woken _ _ _ h
    exact ⟨h1, h2, h3⟩

theorem policy_step_queue (b b1 : buf) (op : policy_op) (calls : List on_block_available_call)
    (h : policy_step b op = .ok (b1, calls)) :
    calls.map (fun c => c.callback) ++ b1.concurrency_buf.lock_callbacks =
        b.concurrency_buf.lock_callbacks ++ registered [op] ∧
      b1.block_id = b.block_id ∧
      (∀ c ∈ calls, c.gbuf = b.block_id) := by
  cases op with
  | acquire mode state =>
    simp only [policy_step, Except.ok.injEq, Prod.mk.injEq] at h
    obtain ⟨rfl, rfl⟩ := h
    simp [registered, acquire_lock_callbacks, acquire_block_id]
  | add_lock_callback callback =>
    simp only [policy_step, rwi_conc_t.local_buf_t.add_lock_callback] at h
    by_cases h0 : callback = 0
    · simp [h0] at h
    · simp only [h0, if_false, Except.ok.injEq, Prod.mk.injEq] at h
      obtain ⟨rfl, rfl⟩ := h
      simp [registered, intrusive_list_t.push_back]
  | on_lock_available =>
    simp only [policy_step] at h
    cases hq : b.concurrency_buf.lock_callbacks with
    | nil => simp [on_lock_available_nil b hq] at h
    | cons c r =>
      simp only [on_lock_available_cons b c r hq, Except.ok.injEq, Prod.mk.injEq] at h
      obtain ⟨rfl, rfl⟩ := h
      simp [registered]
  | release =>
    simp only [policy_step] at h
    obtain ⟨h1, h2, h3⟩ := release_queue b b1 calls h
    exact ⟨by simpa [registered] using h1, h2, h3⟩

theorem registered_cons (op : policy_op) (ops : List policy_op) :
    registered (op :: ops) = registered [op] ++ registered ops := by
  cases op <;> simp [registered]

theorem policy_run_queue (ops : List policy_op) :
    ∀ (b b1 : buf) (calls : List on_block_available_call),
      policy_run ops b = .ok (b1, calls) →
      calls.map (fun c => c.callback) ++ b1.concurrency_buf.lock_callbacks =
        b.concurrency_buf.lock_callbacks ++ registered ops ∧
      b1.block_id = b.block_id ∧
      (∀ c ∈ calls, c.gbuf = b.block_id) := by
  induction ops with
  | nil =>
    intro b b1 calls h
    simp only [policy_run, Except.ok.injEq, Prod.mk.injEq] at h
    obtain ⟨rfl, rfl⟩ := h
    simp [registered]
  | cons op ops ih =>
    intro b b1 calls h
    simp only [policy_run] at h
    cases hs : policy_step b op with
    | error e => simp [hs] at h
    | ok res =>
      obtain ⟨b2, calls2⟩ := res
      simp only [hs] at h
      cases hr : policy_run ops b2 with
      | error e => simp [hr] at h
      | ok res3 =>
        obtain ⟨b3, calls3⟩ := res3
        simp only [hr, Except.ok.injEq, Prod.mk.injEq] at h
        obtain ⟨rfl, rfl⟩ := h
        obtain ⟨s1, s2, s3⟩ := policy_step_queue b b2 op calls2 hs
        obtain ⟨r1, r2, r3⟩ := ih b2 b3 calls3 hr
        refine ⟨?_, ?_, ?_⟩
        · rw [registered_cons, List.map_append, List.append_assoc, r1, ← List.append_assoc, s1,
            List.append_assoc]
        · rw [r2, s2]
        · intro x hx
          rcases List.mem_append.mp hx with hx | hx
          · exact s3 x hx
          · rw [r3 x hx, s2]

theorem policy_run_covered (ops : List policy_op) :
    ∀ b : buf, wakeups_covered (intrusive_list_t.size b.concurrency_buf.lock_callbacks) ops = true →
      ∃ b1 calls, policy_run ops b = .ok (b1, calls) ∧ calls.length = wakeups ops := by
  induction ops with
  | nil =>
    intro b _
    exact ⟨b, [], rfl, rfl⟩
  | cons op ops ih =>
    intro b h
    cases op with
    | acquire mode state => simp [wakeups_covered] at h
    | release => simp [wakeups_covered] at h
    | add_lock_callback callback =>
      simp only [wakeups_covered, Bool.and_eq_true, bne_iff_ne, ne_eq] at h
      obtain ⟨h0, hrest⟩ := h
      have hstep : policy_step b (.add_lock_callback callback) =
          .ok ({ b with concurrency_buf := { b.concurrency_buf with
                  lock_callbacks :=
                    intrusive_list_t.push_back b.concurrency_buf.lock_callbacks callback } },
               []) := by
        simp [policy_step, rwi_conc_t.local_buf_t.add_lock_callback, h0]
      obtain ⟨b1, calls, hrun, hlen⟩ := ih
        { b with concurrency_buf := { b.concurrency_buf with
            lock_callbacks :=
              intrusive_list_t.push_back b.concurrency_buf.lock_callbacks callback } } (by
        simpa [intrusive_list_t.size, intrusive_list_t.push_back] using hrest)
      refine ⟨b1, [] ++ calls, ?_, ?_⟩
      · simp only [policy_run, hstep, hrun]
      · simpa [wakeups] using hlen
    | on_lock_available =>
      simp only [wakeups_covered, Bool.and_eq_true, bne_iff_ne, ne_eq] at h
      obtain ⟨h0, hrest⟩ := h
      cases hq : b.concurrency_buf.lock_callbacks with
      | nil => simp [hq, intrusive_list_t.size] at h0
      | cons c r =>
        have hstep := on_lock_available_cons b c r hq
        obtain ⟨b1, calls, hrun, hlen⟩ := ih
          { b with
            active_callback_count := int_wrap (b.active_callback_count - 1)
            concurrency_buf := { b.concurrency_buf with lock_callbacks := r } } (by
          simpa [hq, intrusive_list_t.size] using hrest)
        refine ⟨b1, [{ callback := c, gbuf := b.block_id }] ++ calls, ?_, ?_⟩
        · simp only [policy_run, policy_step, hstep, hrun]
        · simpa [wakeups] using hlen

/-- C3: lock waiters of a block are dispatched strictly FIFO.  For a block
whose `lock_callbacks` queue is empty and every interleaving of registrations
(`add_lock_callback`) and wake-ups (`on_lock_available`) in which no wake-up
happens on an empty queue, the run succeeds, makes one call per wake-up, each
with the block as argument, and the callbacks called, in call order, followed
by the callbacks still queued, are the registered callbacks in registration
order: no waiter is called before one registered earlier, and when there are
as many wake-ups as registrations the calls are `c1, ..., cn` in exactly the
registration order. -/
theorem C3_waiters_fifo (ops : List policy_op) (b : buf)
    (hempty : b.concurrency_buf.lock_callbacks = [])
    (hcov : wakeups_covered 0 ops = true) :
    ∃ b1 calls, policy_run ops b = .ok (b1, calls) ∧
      calls.length = wakeups ops ∧
      calls.map (fun c => c.callback) ++ b1.concurrency_buf.lock_callbacks = registered ops ∧
      (∀ c ∈ calls, c.gbuf = b.block_id) ∧
      (wakeups ops = (registered ops).length →
        calls.map (fun c => c.callback) = registered ops ∧
        b1.concurrency_buf.lock_callbacks = []) := by
  obtain ⟨b1, calls, hrun, hlen⟩ := policy_run_covered ops b (by
    simpa [hempty, intrusive_list_t.size] using hcov)
  obtain ⟨hq, -, hg⟩ := policy_run_queue ops b b1 calls hrun
  rw [hempty, List.nil_append] at hq
  refine ⟨b1, calls, hrun, hlen, hq, hg, ?_⟩
  intro hn
  have hl : (calls.map (fun c => c.callback) ++ b1.concurrency_buf.lock_callbacks).length =
      (registered ops).length := by rw [hq]
  rw [List.length_append, List.length_map, hlen, hn] at hl
  have hnil : b1.concurrency_buf.lock_callbacks = [] := by
    apply List.eq_nil_of_length_eq_zero
    omega
  rw [hnil, List.append_nil] at hq
  exact ⟨hq, hnil⟩

/-- C3 on an interleaving: 11 and 12 are registered, one wake-up, 13 is
registered, two wake-ups; the calls are 11, 12, 13. -/
theorem C3_waiters_fifo_witness :
    ∃ b1 calls,
      policy_run [.add_lock_callback 11, .add_lock_callback 12, .on_lock_available,
        .add_lock_callback 13, .on_lock_available, .on_lock_available] (idle_buf 7 1000) =
        .ok (b1, calls) ∧
      calls.map (fun c => c.callback) = [11, 12, 13] ∧
      b1.concurrency_buf.lock_callbacks = [] := by
  obtain ⟨b1, calls, hrun, -, -, -, hall⟩ := C3_waiters_fifo
    [.add_lock_callback 11, .add_lock_callback 12, .on_lock_available,
      .add_lock_callback 13, .on_lock_available, .on_lock_available] (idle_buf 7 1000) rfl
    (by decide)
  exact ⟨b1, calls, hrun, hall (by decide)⟩

/-! ### Unloading, data access and acquisition -/

theorem locked_eq_false_iff (l : rwi_lock_t) : l.locked = false ↔ l.holders = [] := by
  cases h : l.holders <;> simp [rwi_lock_t.locked, h]

theorem local_safe_to_unload_iff (lb : rwi_conc_t.local_buf_t) :
    lb.safe_to_unload = true ↔ (lb.lock.locked = false ∧ lb.lock_callbacks = []) := by
  simp [rwi_conc_t.local_buf_t.safe_to_unload, intrusive_list_empty_iff]

/-- C4: a block is safe to unload only if it is unlocked and has no lock
waiters.  For every state of the concurrency record of a block,
`safe_to_unload` returns true if and only if the lock is not held (`locked()`
is false, that is, the lock has no holder) and `lock_callbacks` is empty;
hence a block that is locked, or that has a registered lock waiter, is never
reported safe to unload. -/
theorem C4_safe_to_unload_iff (lb : rwi_conc_t.local_buf_t) :
    (lb.safe_to_unload = true ↔ (lb.lock.locked = false ∧ lb.lock_callbacks = [])) ∧
    (lb.safe_to_unload = true ↔ (lb.lock.holders = [] ∧ lb.lock_callbacks = [])) ∧
    (lb.lock.locked = true → lb.safe_to_unload = false) ∧
    (lb.lock_callbacks ≠ [] → lb.safe_to_unload = false) := by
  have h := local_safe_to_unload_iff lb
  refine ⟨h, ?_, ?_, ?_⟩
  · rw [h, locked_eq_false_iff]
  · intro hl
    cases hs : lb.safe_to_unload with
    | false => rfl
    | true => rw [(h.mp hs).1] at hl; cases hl
  · intro hq
    cases hs : lb.safe_to_unload with
    | false => rfl
    | true => exact absurd (h.mp hs).2 hq

/-- C4 on a block held for writing and on an unlocked block with the waiter
11: neither is safe to unload. -/
theorem C4_safe_to_unload_iff_witness :
    rwi_conc_t.local_buf_t.safe_to_unload
      { lock := { holders := [.Write], waiters := [] }, lock_callbacks := [] } = false ∧
    rwi_conc_t.local_buf_t.safe_to_unload
      { lock := { holders := [], waiters := [] }, lock_callbacks := [11] } = false :=
  ⟨(C4_safe_to_unload_iff
      { lock := { holders := [.Write], waiters := [] }, lock_callbacks := [] }).2.2.1 rfl,
   (C4_safe_to_unload_iff
      { lock := { holders := [], waiters := [] }, lock_callbacks := [11] }).2.2.2 (by decide)⟩

theorem buf_not_safe_of_locked (b : buf) (hl : b.concurrency_buf.lock.locked = true) :
    b.safe_to_unload = false := by
  simp [buf.safe_to_unload, rwi_conc_t.local_buf_t.safe_to_unload, hl]

/-- C5: the data of a block is readable through `ptr()` only if the lock is
held and the block is cached.  When the block is cached and its lock is held,
`ptr()` returns the data pointer, the value `ptr_possibly_uncached()` returns,
and the inner assertion cannot fail because a locked block is never safe to
unload; when the block is not cached `ptr()` fails `assert(cached)`, and when
it is cached but its lock is not held `ptr()` fails the assertion on the
lock. -/
theorem C5_ptr_requires_lock_and_cached (b : buf) :
    (b.cached = true → b.concurrency_buf.lock.locked = true →
      b.ptr = .ok b.data ∧ b.ptr_possibly_uncached = .ok b.data ∧ b.safe_to_unload = false) ∧
    (b.cached = false → b.ptr = .error .cached) ∧
    (b.cached = true → b.concurrency_buf.lock.locked = false → b.ptr = .error .lock_locked) ∧
    (b.concurrency_buf.lock.locked = true → b.safe_to_unload = false) := by
  refine ⟨?_, ?_, ?_, buf_not_safe_of_locked b⟩
  · intro hc hl
    have hs := buf_not_safe_of_locked b hl
    simp [buf.ptr, buf.ptr_possibly_uncached, hc, hl, hs]
  · intro hc
    simp [buf.ptr, hc]
  · intro hc hl
    simp [buf.ptr, hc, hl]

/-- C5 on a cached block held for reading, on a block that is not cached, and
on a cached block nobody holds. -/
theorem C5_ptr_requires_lock_and_cached_witness :
    buf.ptr { idle_buf 7 1000 with
      concurrency_buf := { lock := { holders := [.Read], waiters := [] },
                           lock_callbacks := [] } } = .ok 1000 ∧
    buf.ptr { idle_buf 7 1000 with cached := false } = .error .cached ∧
    buf.ptr (idle_buf 7 1000) = .error .lock_locked :=
  ⟨((C5_ptr_requires_lock_and_cached { idle_buf 7 1000 with
      concurrency_buf := { lock := { holders := [.Read], waiters := [] },
                           lock_callbacks := [] } }).1 rfl rfl).1,
   (C5_ptr_requires_lock_and_cached { idle_buf 7 1000 with cached := false }).2.1 rfl,
   (C5_ptr_requires_lock_and_cached (idle_buf 7 1000)).2.2.1 rfl rfl⟩

theorem lock_fst (l : rwi_lock_t) (mode : access_t) (cb : lock_available_callback_t) :
    (l.lock mode cb).1 = l.try_lock mode := by
  unfold rwi_lock_t.lock
  cases l.try_lock mode <;> simp

theorem lock_granted (l : rwi_lock_t) (mode : access_t) (cb : lock_available_callback_t)
    (h : l.try_lock mode = true) :
    (l.lock mode cb).2 = { holders := l.holders ++ [mode], waiters := l.waiters } := by
  simp [rwi_lock_t.lock, h]

theorem lock_queued (l : rwi_lock_t) (mode : access_t) (cb : lock_available_callback_t)
    (h : l.try_lock mode = false) :
    (l.lock mode cb).2 = { holders := l.holders, waiters := l.waiters ++ [(mode, cb)] } := by
  simp [rwi_lock_t.lock, h, rwi_lock_t.add_waiter]

theorem int_wrap_of_range (x : Int) (hlo : INT_MIN ≤ x) (hhi : x ≤ INT_MAX) :
    int_wrap x = x := by
  unfold INT_MIN at hlo
  unfold INT_MAX at hhi
  unfold int_wrap
  omega

/-- C6 (amended): `rwi_conc_t::acquire` returns true if and only if the lock
of the block was acquired successfully, that is, granted at once in the
requested mode.  When it returns true the mode has joined the holders of the
lock, and the queue of the lock, `lock_callbacks` and the debug counter
`active_callback_count` are unchanged; when it returns false the holders are
unchanged (the lock is not granted to the caller), the request is on the queue
of the lock, `lock_callbacks` is unchanged, and `active_callback_count` has
been incremented as an `int`: it is one more whenever it was an `int` below
`INT_MAX`. -/
theorem C6_acquire_result (b : buf) (mode : access_t) (state : Nat) :
    ((rwi_conc_t.acquire b mode state).1 = true ↔
      b.concurrency_buf.lock.try_lock mode = true) ∧
    ((rwi_conc_t.acquire b mode state).1 = true →
      (rwi_conc_t.acquire b mode state).2.concurrency_buf.lock.holders =
        b.concurrency_buf.lock.holders ++ [mode] ∧
      (rwi_conc_t.acquire b mode state).2.concurrency_buf.lock.waiters =
        b.concurrency_buf.lock.waiters ∧
      (rwi_conc_t.acquire b mode state).2.concurrency_buf.lock_callbacks =
        b.concurrency_buf.lock_callbacks ∧
      (rwi_conc_t.acquire b mode state).2.active_callback_count = b.active_callback_count) ∧
    ((rwi_conc_t.acquire b mode state).1 = false →
      (rwi_conc_t.acquire b mode state).2.concurrency_buf.lock.holders =
        b.concurrency_buf.lock.holders ∧
      (rwi_conc_t.acquire b mode state).2.concurrency_buf.lock.waiters =
        b.concurrency_buf.lock.waiters ++ [(mode, b.block_id)] ∧
      (rwi_conc_t.acquire b mode state).2.concurrency_buf.lock_callbacks =
        b.concurrency_buf.lock_callbacks ∧
      (rwi_conc_t.acquire b mode state).2.active_callback_count =
        int_wrap (b.active_callback_count + 1) ∧
      (INT_MIN ≤ b.active_callback_count → b.active_callback_count < INT_MAX →
        (rwi_conc_t.acquire b mode state).2.active_callback_count =
          b.active_callback_count + 1)) := by
  refine ⟨?_, ?_, ?_⟩
  · rw [acquire_fst, lock_fst]
  · intro h
    rw [acquire_fst] at h
    have ht : b.concurrency_buf.lock.try_lock mode = true := by rw [← lock_fst]; exact h
    rw [acquire_lock, acquire_lock_callbacks, acquire_count, lock_granted _ _ _ ht, h]
    simp
  · intro h
    rw [acquire_fst] at h
    have ht : b.concurrency_buf.lock.try_lock mode = false := by rw [← lock_fst]; exact h
    rw [acquire_lock, acquire_lock_callbacks, acquire_count, lock_queued _ _ _ ht, h]
    refine ⟨rfl, rfl, rfl, by simp, ?_⟩
    intro hlo hhi
    have hw : int_wrap (b.active_callback_count + 1) = b.active_callback_count + 1 := by
      apply int_wrap_of_range
      · unfold INT_MIN at hlo ⊢; omega
      · unfold INT_MAX at hhi ⊢; omega
    simpa using hw

/-- C6 (amended) on an idle block, where a write request is granted, and on a
block held for writing, where a read request is queued and the counter goes
from 0 to 1. -/
theorem C6_acquire_result_witness :
    (rwi_conc_t.acquire (idle_buf 7 1000) .Write 0).1 = true ∧
    (rwi_conc_t.acquire (idle_buf 7 1000) .Write 0).2.concurrency_buf.lock.holders = [.Write] ∧
    (rwi_conc_t.acquire (idle_buf 7 1000) .Write 0).2.active_callback_count = 0 ∧
    (rwi_conc_t.acquire (rwi_conc_t.acquire (idle_buf 7 1000) .Write 0).2 .Read 0).1 = false ∧
    (rwi_conc_t.acquire (rwi_conc_t.acquire (idle_buf 7 1000) .Write 0).2 .Read
      0).2.active_callback_count = 1 ∧
    (rwi_conc_t.acquire (rwi_conc_t.acquire (idle_buf 7 1000) .Write 0).2 .Read
      0).2.concurrency_buf.lock_callbacks = [] := by
  have h1 := (C6_acquire_result (idle_buf 7 1000) .Write 0).2.1 rfl
  have h2 := (C6_acquire_result (rwi_conc_t.acquire (idle_buf 7 1000) .Write 0).2 .Read 0).2.2 rfl
  exact ⟨rfl, h1.1, h1.2.2.2, rfl, h2.2.2.2.2 (by decide) (by decide), h2.2.2.1⟩

/-- C6 as stated fails at the top of the `int` range: on a block held for
writing whose `active_callback_count` is `INT_MAX`, a read request is not
granted, `acquire` returns false, and the counter is `INT_MIN` afterwards, not
`INT_MAX + 1`. -/
theorem C6_counterexample :
    (rwi_conc_t.acquire
      { idle_buf 7 1000 with
        active_callback_count := 2147483647
        concurrency_buf := { lock := { holders := [.Write], waiters := [] },
                             lock_callbacks := [] } } .Read 0).1 = false ∧
    (rwi_conc_t.acquire
      { idle_buf 7 1000 with
        active_callback_count := 2147483647
        concurrency_buf := { lock := { holders := [.Write], waiters := [] },
                             lock_callbacks := [] } } .Read 0).2.active_callback_count =
      -2147483648 ∧
    (rwi_conc_t.acquire
      { idle_buf 7 1000 with
        active_callback_count := 2147483647
        concurrency_buf := { lock := { holders := [.Write], waiters := [] },
                             lock_callbacks := [] } } .Read 0).2.active_callback_count ≠
      2147483647 + 1 := by
  refine ⟨rfl, ?_, ?_⟩ <;> simp [rwi_conc_t.acquire, rwi_lock_t.lock, rwi_lock_t.try_lock,
    rwi_lock_t.compatible, coexists, idle_buf, int_wrap]

/-! ### The two waiter queues of a block -/

theorem grant_front_length (ws : List (access_t × lock_available_callback_t)) :
    ∀ hs : List access_t,
      (rwi_lock_t.grant_front hs ws).2.1.length + (rwi_lock_t.grant_front hs ws).2.2.length =
        ws.length := by
  induction ws with
  | nil => intro hs; simp [rwi_lock_t.grant_front]
  | cons w rest ih =>
    intro hs
    obtain ⟨m, cb⟩ := w
    by_cases h : hs.all (coexists m) = true
    · have := ih (hs ++ [m])
      simp only [rwi_lock_t.grant_front, h, if_true, List.length_cons]
      omega
    · simp [rwi_lock_t.grant_front, h]

theorem unlock_length (l l1 : rwi_lock_t) (woken : List lock_available_callback_t)
    (h : l.unlock = .ok (l1, woken)) :
    l1.waiters.length + woken.length = l.waiters.length := by
  unfold rwi_lock_t.unlock at h
  cases hh : l.holders with
  | nil => simp [hh] at h
  | cons x hs =>
    simp only [hh, Except.ok.injEq, Prod.mk.injEq] at h
    obtain ⟨rfl, rfl⟩ := h
    exact grant_front_length l.waiters hs

theorem unlock_of_locked (l : rwi_lock_t) (h : l.locked = true) :
    ∃ l1 woken, l.unlock = .ok (l1, woken) := by
  unfold rwi_lock_t.unlock
  cases hh : l.holders with
  | nil => simp [rwi_lock_t.locked, hh] at h
  | cons x hs => exact ⟨_, _, rfl⟩

theorem wake_total (ws : List lock_available_callback_t) :
    ∀ b : buf, ws.length ≤ intrusive_list_t.size b.concurrency_buf.lock_callbacks →
      ∃ b1 calls, rwi_conc_t.wake ws b = .ok (b1, calls) := by
  induction ws with
  | nil => intro b _; exact ⟨b, [], rfl⟩
  | cons w rest ih =>
    intro b h
    cases hq : b.concurrency_buf.lock_callbacks with
    | nil => simp [hq, intrusive_list_t.size] at h
    | cons c r =>
      obtain ⟨b1, calls, hw⟩ := ih
        { b with
          active_callback_count := int_wrap (b.active_callback_count - 1)
          concurrency_buf := { b.concurrency_buf with lock_callbacks := r } } (by
        simpa [hq, intrusive_list_t.size] using h)
      refine ⟨b1, [{ callback := c, gbuf := b.block_id }] ++ calls, ?_⟩
      simp only [rwi_conc_t.wake, on_lock_available_cons b c r hq, hw]

theorem release_queues_agree (b b1 : buf) (calls : List on_block_available_call)
    (hinv : queues_agree b) (h : rwi_conc_t.release b = .ok (b1, calls)) :
    queues_agree b1 := by
  unfold rwi_conc_t.release at h
  cases hu : b.concurrency_buf.lock.unlock with
  | error e => simp [hu] at h
  | ok res =>
    obtain ⟨l, woken⟩ := res
    simp only [hu] at h
    obtain ⟨h1, -, -, h4, h5⟩ := wake_queue woken _ _ _ h
    have hlen := unlock_length _ _ _ hu
    have h1l := congrArg List.length h1
    simp only [List.length_append, List.length_map] at h1l
    unfold queues_agree at hinv ⊢
    simp only [intrusive_list_t.size] at hinv ⊢
    rw [h5]
    have h1r : calls.length + b1.concurrency_buf.lock_callbacks.length =
        b.concurrency_buf.lock_callbacks.length := h1l
    show b1.concurrency_buf.lock_callbacks.length = l.waiters.length
    omega

theorem release_total (b : buf) (hinv : queues_agree b)
    (hl : b.concurrency_buf.lock.locked = true) :
    ∃ b1 calls, rwi_conc_t.release b = .ok (b1, calls) := by
  obtain ⟨l, woken, hu⟩ := unlock_of_locked _ hl
  have hlen := unlock_length _ _ _ hu
  unfold queues_agree at hinv
  simp only [intrusive_list_t.size] at hinv
  obtain ⟨b1, calls, hw⟩ := wake_total woken
    { b with concurrency_buf := { b.concurrency_buf with lock := l } } (by
      show woken.length ≤ b.concurrency_buf.lock_callbacks.length
      omega)
  exact ⟨b1, calls, by simp only [rwi_conc_t.release, hu, hw]⟩

theorem acquire_waiters_length (b : buf) (mode : access_t) (state : Nat) :
    (rwi_conc_t.acquire b mode state).2.concurrency_buf.lock.waiters.length =
      if (rwi_conc_t.acquire b mode state).1 then b.concurrency_buf.lock.waiters.length
      else b.concurrency_buf.lock.waiters.length + 1 := by
  rw [acquire_lock, acquire_fst, lock_fst]
  cases ht : b.concurrency_buf.lock.try_lock mode
  · rw [lock_queued _ _ _ ht]; simp
  · rw [lock_granted _ _ _ ht]; simp

theorem cache_step_acquire (b : buf) (mode : access_t) (callback : block_available_callback_t)
    (hinv : queues_agree b) (h0 : callback ≠ 0) :
    ∃ b1, cache_step b (.acquire mode callback) = .ok (b1, []) ∧ queues_agree b1 := by
  have hw := acquire_waiters_length b mode callback
  have hc := acquire_lock_callbacks b mode callback
  unfold queues_agree at hinv
  simp only [intrusive_list_t.size] at hinv
  cases hr : (rwi_conc_t.acquire b mode callback).1 with
  | true =>
    refine ⟨(rwi_conc_t.acquire b mode callback).2, by simp [cache_step, hr], ?_⟩
    rw [hr] at hw
    unfold queues_agree
    simp only [intrusive_list_t.size, hc]
    simpa [hinv] using hw.symm
  | false =>
    refine ⟨{ (rwi_conc_t.acquire b mode callback).2 with
              concurrency_buf := { (rwi_conc_t.acquire b mode callback).2.concurrency_buf with
                lock_callbacks := intrusive_list_t.push_back
                  (rwi_conc_t.acquire b mode callback).2.concurrency_buf.lock_callbacks callback } },
      by simp [cache_step, hr, rwi_conc_t.local_buf_t.add_lock_callback, h0], ?_⟩
    rw [hr] at hw
    unfold queues_agree
    simp only [intrusive_list_t.size, intrusive_list_t.push_back, hc, List.length_append,
      List.length_singleton]
    simpa [hinv] using hw.symm

theorem cache_step_queues_agree (b b1 : buf) (op : cache_op)
    (calls : List on_block_available_call) (hinv : queues_agree b)
    (h : cache_step b op = .ok (b1, calls)) : queues_agree b1 := by
  cases op with
  | release => exact release_queues_agree b b1 calls hinv h
  | acquire mode callback =>
    by_cases h0 : callback = 0
    · subst h0
      cases hr : (rwi_conc_t.acquire b mode 0).1 with
      | false => simp [cache_step, hr, rwi_conc_t.local_buf_t.add_lock_callback] at h
      | true =>
        simp only [cache_step, hr, if_true, Except.ok.injEq, Prod.mk.injEq] at h
        obtain ⟨rfl, -⟩ := h
        have hw := acquire_waiters_length b mode 0
        rw [hr] at hw
        unfold queues_agree at hinv ⊢
        simp only [intrusive_list_t.size, acquire_lock_callbacks] at hinv ⊢
        simpa [hinv] using hw.symm
    · obtain ⟨b2, hs, hq⟩ := cache_step_acquire b mode callback hinv h0
      rw [hs] at h
      simp only [Except.ok.injEq, Prod.mk.injEq] at h
      obtain ⟨rfl, -⟩ := h
      exact hq

theorem cache_run_queues_agree (ops : List cache_op) :
    ∀ (b b1 : buf) (calls : List on_block_available_call), queues_agree b →
      cache_run ops b = .ok (b1, calls) → queues_agree b1 := by
  induction ops with
  | nil =>
    intro b b1 calls hinv h
    simp only [cache_run, Except.ok.injEq, Prod.mk.injEq] at h
    obtain ⟨rfl, -⟩ := h
    exact hinv
  | cons op ops ih =>
    intro b b1 calls hinv h
    simp only [cache_run] at h
    cases hs : cache_step b op with
    | error e => simp [hs] at h
    | ok res =>
      obtain ⟨b2, calls2⟩ := res
      simp only [hs] at h
      cases hr : cache_run ops b2 with
      | error e => simp [hr] at h
      | ok res3 =>
        obtain ⟨b3, calls3⟩ := res3
        simp only [hr, Except.ok.injEq, Prod.mk.injEq] at h
        obtain ⟨rfl, -⟩ := h
        exact ih b2 b3 calls3 (cache_step_queues_agree b b2 op calls2 hinv hs) hr

/-- C8 (amended): `lock_callbacks` has as many objects as the internal waiter
queue of the lock in every state the cache reaches by driving the policy the
way it does: an `acquire` the lock grants at once, an `acquire` the lock
queues followed by `add_lock_callback`, and a `release` with the wake-ups
(`on_lock_available`) of the requests it grants.  From a block where the two
lengths agree each such step succeeds (a release needs a held lock, a
registration a non-null callback) and ends in a block where they agree, and so
does every sequence of such steps.  Taken alone, an `acquire` that returns
false adds one entry to the queue of the lock and none to `lock_callbacks`,
and `add_lock_callback` adds one entry to `lock_callbacks` and none to the
queue of the lock. -/
theorem C8_queues_agree_by_steps (b : buf) (hinv : queues_agree b) :
    (∀ mode callback, callback ≠ 0 →
      ∃ b1, cache_step b (.acquire mode callback) = .ok (b1, []) ∧ queues_agree b1) ∧
    (b.concurrency_buf.lock.locked = true →
      ∃ b1 calls, cache_step b .release = .ok (b1, calls) ∧ queues_agree b1) ∧
    (∀ ops b1 calls, cache_run ops b = .ok (b1, calls) → queues_agree b1) ∧
    (∀ mode state, (rwi_conc_t.acquire b mode state).1 = true →
      queues_agree (rwi_conc_t.acquire b mode state).2) ∧
    (∀ mode state, (rwi_conc_t.acquire b mode state).1 = false →
      intrusive_list_t.size (rwi_conc_t.acquire b mode state).2.concurrency_buf.lock_callbacks =
        intrusive_list_t.size b.concurrency_buf.lock_callbacks ∧
      (rwi_conc_t.acquire b mode state).2.concurrency_buf.lock.waiters.length =
        b.concurrency_buf.lock.waiters.length + 1) ∧
    (∀ callback lb,
      rwi_conc_t.local_buf_t.add_lock_callback b.concurrency_buf callback = .ok lb →
      intrusive_list_t.size lb.lock_callbacks =
        intrusive_list_t.size b.concurrency_buf.lock_callbacks + 1 ∧
      lb.lock = b.concurrency_buf.lock) := by
  refine ⟨?_, ?_, ?_, ?_, ?_, ?_⟩
  · intro mode callback h0
    exact cache_step_acquire b mode callback hinv h0
  · intro hl
    obtain ⟨b1, calls, hr⟩ := release_total b hinv hl
    exact ⟨b1, calls, hr, release_queues_agree b b1 calls hinv hr⟩
  · intro ops b1 calls hr
    exact cache_run_queues_agree ops b b1 calls hinv hr
  · intro mode state hr
    have hw := acquire_waiters_length b mode state
    rw [hr] at hw
    unfold queues_agree at hinv ⊢
    simp only [intrusive_list_t.size, acquire_lock_callbacks] at hinv ⊢
    simpa [hinv] using hw.symm
  · intro mode state hr
    have hw := acquire_waiters_length b mode state
    rw [hr] at hw
    exact ⟨by rw [acquire_lock_callbacks], by simpa using hw⟩
  · intro callback lb h
    unfold rwi_conc_t.local_buf_t.add_lock_callback at h
    by_cases h0 : callback = 0
    · simp [h0] at h
    · simp only [h0, if_false, Except.ok.injEq] at h
      subst h
      simp [intrusive_list_t.size, intrusive_list_t.push_back]

/-- C8 (amended) on an idle block: a write request is granted, two read
requests and a write request are queued and registered, and the release
wakes the two readers; the two queues then hold one entry each. -/
theorem C8_queues_agree_by_steps_witness :
    ∃ b1 calls,
      cache_run [.acquire .Write 10, .acquire .Read 11, .acquire .Read 12, .acquire .Write 13,
        .release] (idle_buf 7 1000) = .ok (b1, calls) ∧
      queues_agree b1 ∧
      b1.concurrency_buf.lock_callbacks = [13] ∧
      b1.concurrency_buf.lock.waiters = [(.Write, 7)] ∧
      calls.map (fun c => c.callback) = [11, 12] :=
  ⟨_, _, rfl,
    (C8_queues_agree_by_steps (idle_buf 7 1000) (by decide)).2.2.1
      [.acquire .Write 10, .acquire .Read 11, .acquire .Read 12, .acquire .Write 13, .release]
      _ _ rfl,
    rfl, rfl, rfl⟩

/-- C8 as stated fails for `acquire` taken as an operation of its own: on a
block held for writing, where the two queues are empty, an `acquire` that the
lock does not grant puts one entry on the queue of the lock and none on
`lock_callbacks`. -/
theorem C8_counterexample :
    ∃ b1 b2,
      policy_step (idle_buf 7 1000) (.acquire .Write 0) = .ok (b1, []) ∧
      queues_agree b1 ∧
      policy_step b1 (.acquire .Write 0) = .ok (b2, []) ∧
      ¬ queues_agree b2 ∧
      intrusive_list_t.size b2.concurrency_buf.lock_callbacks = 0 ∧
      b2.concurrency_buf.lock.waiters.length = 1 ∧
      policy_run [.acquire .Write 0, .acquire .Write 0] (idle_buf 7 1000) = .ok (b2, []) :=
  ⟨_, _, rfl, by decide, rfl, by decide, rfl, rfl, rfl⟩
